import Mathlib

/-!
Shallow embedding of `src/txn/lock_manager.cc`: a lock manager for
deterministic two-phase locking with two policy variants.

* `LockManagerA` — exclusive-only policy: every request is EXCLUSIVE and
  ownership is always the front of the per-key FIFO queue.
* `LockManagerB` — shared/exclusive policy: a maximal run of SHARED
  requests at the front of the queue (or a lone EXCLUSIVE front request)
  are the current owners.

The C++ state consists of
* `lock_table_ : unordered_map<Key, deque<LockRequest>*>` — per-key FIFO
  queues, created lazily by `_getLockQueue`;
* `txn_waits_ : unordered_map<Txn*, int>` — per-transaction count of
  not-yet-granted requests (`operator[]` default-constructs `0` for an
  absent key);
* `ready_txns_ : deque<Txn*>*` — the caller-owned Ready Sink, append only.

`Txn*` and `Key` are opaque identities compared by equality; we model both
as `Nat`.  `txn_waits_` values are C++ `int`, modelled as `Int` (the code
can drive a counter negative via `--txn_waits_[t]` on an absent entry, so
`Nat` would be unfaithful).  Maps are modelled as functions into `Option`
so that presence/absence of an entry (and the lazy creation of empty
queues) is visible.
-/

namespace LockMgr

abbrev Txn := Nat
abbrev Key := Nat

/-- `enum LockMode { UNLOCKED, SHARED, EXCLUSIVE }` from the C++ header. -/
inductive LockMode where
  | UNLOCKED
  | SHARED
  | EXCLUSIVE
deriving DecidableEq, Repr

/-- `struct LockRequest { LockMode mode_; Txn* txn_; }`. -/
structure LockRequest where
  mode_ : LockMode
  txn_ : Txn
deriving DecidableEq, Repr

/-- The mutable state of a lock manager instance (either policy):
`lock_table_`, `txn_waits_` and the external `ready_txns_` sink. -/
structure LMState where
  lock_table : Key → Option (List LockRequest)
  txn_waits : Txn → Option Int
  ready_txns : List Txn

/-- A freshly constructed lock manager: no queues, no waits, empty sink. -/
def initState : LMState :=
  { lock_table := fun _ => none, txn_waits := fun _ => none, ready_txns := [] }

/-- The contents of `key`'s queue as observed through `_getLockQueue`:
an absent entry reads as the empty queue. -/
def qview (s : LMState) (k : Key) : List LockRequest :=
  (s.lock_table k).getD []

/-- Store `q` as the queue of key `k` (in C++ the queue is mutated in
place through the pointer obtained from `_getLockQueue`). -/
def setQueue (s : LMState) (k : Key) (q : List LockRequest) : LMState :=
  { s with lock_table := fun k1 => if k1 = k then some q else s.lock_table k1 }

/-- `LockManager::_getLockQueue`: look up `key` in `lock_table_`,
lazily creating an empty queue if the key has never been seen.  Returns
the queue contents together with the (possibly extended) state. -/
def _getLockQueue (s : LMState) (k : Key) : List LockRequest × LMState :=
  match s.lock_table k with
  | some dq => (dq, s)
  | none => ([], setQueue s k [])

/-- `txn_waits_[txn]++`: `operator[]` default-constructs `0` when `txn`
is absent, then the count is incremented. -/
def incWaits (s : LMState) (t : Txn) : LMState :=
  { s with
    txn_waits := fun t1 =>
      if t1 = t then some ((s.txn_waits t).getD 0 + 1) else s.txn_waits t1 }

/-- Remove the first request of transaction `t` from a queue — the erase
loop shared by both `Release` implementations (`erase` + `break` on the
first request whose `txn_` matches). -/
def eraseFirstReq (t : Txn) : List LockRequest → List LockRequest
  | [] => []
  | r :: rs => if r.txn_ = t then rs else r :: eraseFirstReq t rs

namespace LockManagerA

/-- `LockManagerA::WriteLock`: record whether the queue was empty, append
an EXCLUSIVE request, bump the wait counter when the lock is not
immediately granted, and return `granted = (queue was empty)`. -/
def WriteLock (s : LMState) (t : Txn) (k : Key) : Bool × LMState :=
  let gq := _getLockQueue s k
  let empty := gq.1.isEmpty
  let s2 := setQueue gq.2 k (gq.1 ++ [⟨LockMode.EXCLUSIVE, t⟩])
  (empty, if empty then s2 else incWaits s2 t)

/-- `LockManagerA::ReadLock` simply delegates to `WriteLock` — Part 1A
implements only exclusive locks. -/
def ReadLock (s : LMState) (t : Txn) (k : Key) : Bool × LMState :=
  WriteLock s t k

/-- The `removedOwner` flag of `LockManagerA::Release`: it starts `true`
and is set to `false` on every non-matching iteration before the erase
loop breaks, so after the loop it is `true` iff the queue was empty or
its front request belonged to `txn`. -/
def removedOwnerFlag (t : Txn) (q : List LockRequest) : Bool :=
  match q with
  | [] => true
  | r :: _ => decide (r.txn_ = t)

/-- `--txn_waits_[next.txn_]` followed by the zero test of
`LockManagerA::Release`: decrement the new front transaction's counter
(`operator[]` default `0` when absent); on reaching zero, push the
transaction to the Ready Sink and erase its entry. -/
def promoteNext (s : LMState) (t : Txn) : LMState :=
  let w := (s.txn_waits t).getD 0 - 1
  if w = 0 then
    { s with
      txn_waits := fun t1 => if t1 = t then none else s.txn_waits t1,
      ready_txns := s.ready_txns ++ [t] }
  else
    { s with txn_waits := fun t1 => if t1 = t then some w else s.txn_waits t1 }

/-- `LockManagerA::Release`: erase the first request matching `txn`;
if the removed request was the owner (found at the very front) and the
queue is still non-empty, promote the new front request's transaction. -/
def Release (s : LMState) (t : Txn) (k : Key) : LMState :=
  let gq := _getLockQueue s k
  let q1 := eraseFirstReq t gq.1
  let s2 := setQueue gq.2 k q1
  match q1 with
  | [] => s2
  | next :: _ => if removedOwnerFlag t gq.1 then promoteNext s2 next.txn_ else s2

/-- `LockManagerA::Status`: `UNLOCKED` on an empty queue, otherwise
`EXCLUSIVE` with the front transaction as sole owner.  (The C++ leaves
the `owners` out-parameter unassigned in the empty case; we return `[]`
there.) -/
def Status (s : LMState) (k : Key) : LockMode × List Txn × LMState :=
  let gq := _getLockQueue s k
  match gq.1 with
  | [] => (LockMode.UNLOCKED, [], gq.2)
  | r :: _ => (LockMode.EXCLUSIVE, [r.txn_], gq.2)

end LockManagerA

namespace LockManagerB

/-- The owner-collecting loop of `LockManagerB::Status`: `mode` is the
running mode (seeded with EXCLUSIVE by the caller) and `owners` the
transactions accepted so far.  An EXCLUSIVE request met while the running
mode is SHARED stops the walk without being accepted; otherwise the
request is accepted and, if it is EXCLUSIVE, the walk stops right after. -/
def statusLoop : List LockRequest → LockMode → List Txn → LockMode × List Txn
  | [], mode, owners => (mode, owners)
  | r :: rs, mode, owners =>
    if r.mode_ = LockMode.EXCLUSIVE ∧ mode = LockMode.SHARED then (mode, owners)
    else
      let owners1 := owners ++ [r.txn_]
      if r.mode_ = LockMode.EXCLUSIVE then (LockMode.EXCLUSIVE, owners1)
      else statusLoop rs r.mode_ owners1

/-- `LockManagerB::Status`: `UNLOCKED` on an empty queue, otherwise run
the owner walk from the front with mode seed EXCLUSIVE. -/
def Status (s : LMState) (k : Key) : LockMode × List Txn × LMState :=
  let gq := _getLockQueue s k
  match gq.1 with
  | [] => (LockMode.UNLOCKED, [], gq.2)
  | _ :: _ =>
    let r := statusLoop gq.1 LockMode.EXCLUSIVE []
    (r.1, r.2, gq.2)

/-- `LockManagerB::_noExclusiveWaiting`: `true` iff no request anywhere
in `key`'s queue is EXCLUSIVE. -/
def noExclusiveWaiting (s : LMState) (k : Key) : Bool × LMState :=
  let gq := _getLockQueue s k
  (gq.1.all fun lr => !decide (lr.mode_ = LockMode.EXCLUSIVE), gq.2)

/-- `LockManagerB::WriteLock`: compute `Status` before inserting, append
an EXCLUSIVE request, grant iff the status was UNLOCKED, and bump the
wait counter otherwise. -/
def WriteLock (s : LMState) (t : Txn) (k : Key) : Bool × LMState :=
  let st := Status s k
  let s1 := st.2.2
  let s2 := setQueue s1 k (qview s1 k ++ [⟨LockMode.EXCLUSIVE, t⟩])
  let granted := decide (st.1 = LockMode.UNLOCKED)
  (granted, if granted then s2 else incWaits s2 t)

/-- `LockManagerB::ReadLock`: compute `Status` before inserting, append a
SHARED request, grant iff the pre-insert status was UNLOCKED or no
EXCLUSIVE request is anywhere in the queue (the C++ evaluates
`_noExclusiveWaiting` after the `push_back`, on the queue that already
contains the new SHARED request), and bump the wait counter otherwise. -/
def ReadLock (s : LMState) (t : Txn) (k : Key) : Bool × LMState :=
  let st := Status s k
  let s1 := st.2.2
  let s2 := setQueue s1 k (qview s1 k ++ [⟨LockMode.SHARED, t⟩])
  let ne := noExclusiveWaiting s2 k
  let granted := decide (st.1 = LockMode.UNLOCKED) || ne.1
  (granted, if granted then ne.2 else incWaits ne.2 t)

/-- One iteration of the promotion loop of `LockManagerB::Release`: if
the owner has a `txn_waits_` entry, decrement it (`--(waitCount->second)`),
and on reaching zero push the owner to the Ready Sink and erase the
entry.  Owners with no entry were never waiting and are skipped. -/
def promoteOwner (s : LMState) (t : Txn) : LMState :=
  match s.txn_waits t with
  | none => s
  | some c =>
    if c - 1 = 0 then
      { s with
        txn_waits := fun t1 => if t1 = t then none else s.txn_waits t1,
        ready_txns := s.ready_txns ++ [t] }
    else
      { s with txn_waits := fun t1 => if t1 = t then some (c - 1) else s.txn_waits t1 }

/-- The `for (auto&& owner : newOwners)` loop of `LockManagerB::Release`. -/
def promoteOwners : LMState → List Txn → LMState
  | s, [] => s
  | s, t :: ts => promoteOwners (promoteOwner s t) ts

/-- `LockManagerB::Release`: erase the first request matching `txn`,
recompute the owners of the mutated queue via `Status`, and run the
promotion loop over the new owners. -/
def Release (s : LMState) (t : Txn) (k : Key) : LMState :=
  let gq := _getLockQueue s k
  let s2 := setQueue gq.2 k (eraseFirstReq t gq.1)
  let st := Status s2 k
  promoteOwners st.2.2 st.2.1

end LockManagerB

/-- The owner walk as the specification words it, packaged as a pure
function of the queue contents: on a non-empty queue an EXCLUSIVE front
request is the lone owner (mode EXCLUSIVE); otherwise the owners are the
maximal front run of SHARED requests (mode SHARED). -/
def specOwnersRun (q : List LockRequest) : LockMode × List Txn :=
  match q with
  | [] => (LockMode.UNLOCKED, [])
  | r :: rs =>
    if r.mode_ = LockMode.EXCLUSIVE then (LockMode.EXCLUSIVE, [r.txn_])
    else (LockMode.SHARED,
      r.txn_ :: ((rs.takeWhile fun x => decide (x.mode_ = LockMode.SHARED)).map
        LockRequest.txn_))

/-- Observational equality of two manager states: the same queue contents
for every key, the same wait-counter map, the same Ready Sink.  Two states
related this way differ at most in which keys hold a lazily created empty
queue. -/
def obsEq (s s1 : LMState) : Prop :=
  (∀ k, qview s k = qview s1 k)
  ∧ s.txn_waits = s1.txn_waits
  ∧ s.ready_txns = s1.ready_txns

/-- The policy-B scenario of the specification on key 0 (standing for
`"y"`), after ReadLock(T1), ReadLock(T2), WriteLock(T3): queue
`[S:T1, S:T2, E:T3]`. -/
def scenB3 : Bool × LMState :=
  LockManagerB.WriteLock
    (LockManagerB.ReadLock (LockManagerB.ReadLock initState 1 0).2 2 0).2 3 0

/-- The scenario state after the additional ReadLock(T4). -/
def scenB4 : Bool × LMState := LockManagerB.ReadLock scenB3.2 4 0

/-- The scenario state after Release(T1). -/
def scenB5 : LMState := LockManagerB.Release scenB4.2 1 0

/-- The scenario state after Release(T2). -/
def scenB6 : LMState := LockManagerB.Release scenB5 2 0

/-- The scenario state after Release(T3). -/
def scenB7 : LMState := LockManagerB.Release scenB6 3 0

/-! ### Observation lemmas for the state primitives -/

@[simp]
theorem qview_setQueue (s : LMState) (k : Key) (q : List LockRequest) (k1 : Key) :
    qview (setQueue s k q) k1 = if k1 = k then q else qview s k1 := by
  unfold qview setQueue
  by_cases h : k1 = k <;> simp [h]

@[simp]
theorem txn_waits_setQueue (s : LMState) (k : Key) (q : List LockRequest) :
    (setQueue s k q).txn_waits = s.txn_waits := rfl

@[simp]
theorem ready_setQueue (s : LMState) (k : Key) (q : List LockRequest) :
    (setQueue s k q).ready_txns = s.ready_txns := rfl

@[simp]
theorem fst_getLockQueue (s : LMState) (k : Key) :
    (_getLockQueue s k).1 = qview s k := by
  unfold _getLockQueue qview
  cases h : s.lock_table k <;> simp [h]

@[simp]
theorem qview_snd_getLockQueue (s : LMState) (k : Key) (k1 : Key) :
    qview (_getLockQueue s k).2 k1 = qview s k1 := by
  unfold _getLockQueue
  cases h : s.lock_table k with
  | none =>
    simp only [qview_setQueue]
    by_cases hk : k1 = k <;> simp [hk, qview, h]
  | some dq => simp

@[simp]
theorem txn_waits_snd_getLockQueue (s : LMState) (k : Key) :
    ((_getLockQueue s k).2).txn_waits = s.txn_waits := by
  unfold _getLockQueue
  cases h : s.lock_table k <;> simp [h, setQueue]

@[simp]
theorem ready_snd_getLockQueue (s : LMState) (k : Key) :
    ((_getLockQueue s k).2).ready_txns = s.ready_txns := by
  unfold _getLockQueue
  cases h : s.lock_table k <;> simp [h, setQueue]

theorem setQueue_snd_getLockQueue (s : LMState) (k : Key) (q : List LockRequest) :
    setQueue (_getLockQueue s k).2 k q = setQueue s k q := by
  unfold _getLockQueue
  cases h : s.lock_table k with
  | none =>
    simp only [setQueue]
    congr 1
    funext k1
    by_cases hk : k1 = k <;> simp [hk]
  | some dq => rfl

@[simp]
theorem qview_incWaits (s : LMState) (t : Txn) (k : Key) :
    qview (incWaits s t) k = qview s k := rfl

@[simp]
theorem ready_incWaits (s : LMState) (t : Txn) :
    (incWaits s t).ready_txns = s.ready_txns := rfl

theorem txn_waits_incWaits (s : LMState) (t : Txn) (t1 : Txn) :
    (incWaits s t).txn_waits t1 =
      if t1 = t then some ((s.txn_waits t).getD 0 + 1) else s.txn_waits t1 := rfl

theorem snd_snd_StatusB (s : LMState) (k : Key) :
    (LockManagerB.Status s k).2.2 = (_getLockQueue s k).2 := by
  unfold LockManagerB.Status
  simp only [fst_getLockQueue]
  cases h : qview s k <;> simp [h]

theorem fst_StatusB_nil (s : LMState) (k : Key) (h : qview s k = []) :
    (LockManagerB.Status s k).1 = LockMode.UNLOCKED := by
  unfold LockManagerB.Status
  simp [fst_getLockQueue, h]

theorem fst_StatusB_cons (s : LMState) (k : Key) (r : LockRequest)
    (rs : List LockRequest) (h : qview s k = r :: rs) :
    (LockManagerB.Status s k).1 =
      (LockManagerB.statusLoop (r :: rs) LockMode.EXCLUSIVE []).1 := by
  unfold LockManagerB.Status
  simp [fst_getLockQueue, h]

theorem owners_StatusB_nil (s : LMState) (k : Key) (h : qview s k = []) :
    (LockManagerB.Status s k).2.1 = [] := by
  unfold LockManagerB.Status
  simp [fst_getLockQueue, h]

theorem owners_StatusB_cons (s : LMState) (k : Key) (r : LockRequest)
    (rs : List LockRequest) (h : qview s k = r :: rs) :
    (LockManagerB.Status s k).2.1 =
      (LockManagerB.statusLoop (r :: rs) LockMode.EXCLUSIVE []).2 := by
  unfold LockManagerB.Status
  simp [fst_getLockQueue, h]

theorem snd_getLockQueue_setQueue (s : LMState) (k : Key) (q : List LockRequest) :
    (_getLockQueue (setQueue s k q) k).2 = setQueue s k q := by
  unfold _getLockQueue setQueue
  simp

theorem fst_noExclusiveWaiting (s : LMState) (k : Key) :
    (LockManagerB.noExclusiveWaiting s k).1 =
      (qview s k).all fun lr => !decide (lr.mode_ = LockMode.EXCLUSIVE) := by
  unfold LockManagerB.noExclusiveWaiting
  simp

theorem snd_noExclusiveWaiting (s : LMState) (k : Key) :
    (LockManagerB.noExclusiveWaiting s k).2 = (_getLockQueue s k).2 := rfl

/-- A `statusLoop` seeded with a non-UNLOCKED running mode on a queue of
well-formed requests (SHARED or EXCLUSIVE only) never reports UNLOCKED:
the running mode is only ever replaced by the mode of an accepted
request. -/
theorem statusLoop_ne_UNLOCKED (q : List LockRequest) (m : LockMode) (o : List Txn)
    (hm : ∀ r ∈ q, r.mode_ ≠ LockMode.UNLOCKED) (h : m ≠ LockMode.UNLOCKED) :
    (LockManagerB.statusLoop q m o).1 ≠ LockMode.UNLOCKED := by
  induction q generalizing m o with
  | nil => simpa [LockManagerB.statusLoop] using h
  | cons r rs ih =>
    unfold LockManagerB.statusLoop
    by_cases hc : r.mode_ = LockMode.EXCLUSIVE ∧ m = LockMode.SHARED
    · rw [if_pos hc]
      exact h
    · simp only [hc, if_false]
      by_cases he : r.mode_ = LockMode.EXCLUSIVE
      · simp [he]
      · simp only [he, if_false]
        exact ih _ _ (fun x hx => hm x (List.mem_cons_of_mem r hx))
          (hm r (List.mem_cons_self r rs))

theorem snd_snd_StatusA (s : LMState) (k : Key) :
    (LockManagerA.Status s k).2.2 = (_getLockQueue s k).2 := by
  unfold LockManagerA.Status
  simp only [fst_getLockQueue]
  cases h : qview s k <;> simp [h]

theorem statusA_nil (s : LMState) (k : Key) (h : qview s k = []) :
    (LockManagerA.Status s k).1 = LockMode.UNLOCKED
    ∧ (LockManagerA.Status s k).2.1 = [] := by
  unfold LockManagerA.Status
  simp [fst_getLockQueue, h]

theorem statusA_cons (s : LMState) (k : Key) (r : LockRequest)
    (rs : List LockRequest) (h : qview s k = r :: rs) :
    (LockManagerA.Status s k).1 = LockMode.EXCLUSIVE
    ∧ (LockManagerA.Status s k).2.1 = [r.txn_] := by
  unfold LockManagerA.Status
  simp [fst_getLockQueue, h]

/-- Once the running mode is SHARED, the loop of `LockManagerB::Status`
accepts exactly the front run of SHARED requests and reports SHARED. -/
theorem statusLoop_shared_run (rs : List LockRequest) (o : List Txn)
    (hm : ∀ x ∈ rs, x.mode_ ≠ LockMode.UNLOCKED) :
    LockManagerB.statusLoop rs LockMode.SHARED o =
      (LockMode.SHARED,
       o ++ (rs.takeWhile fun x => decide (x.mode_ = LockMode.SHARED)).map
         LockRequest.txn_) := by
  induction rs generalizing o with
  | nil => simp [LockManagerB.statusLoop]
  | cons x xs ih =>
    unfold LockManagerB.statusLoop
    by_cases hx : x.mode_ = LockMode.EXCLUSIVE
    · rw [if_pos ⟨hx, rfl⟩]
      simp [List.takeWhile_cons, hx]
    · have hxs : x.mode_ = LockMode.SHARED := by
        cases hmx : x.mode_
        · exact absurd hmx (hm x (List.mem_cons_self x xs))
        · rfl
        · exact absurd hmx hx
      rw [if_neg (fun hc => hx hc.1), if_neg hx, hxs,
        ih _ (fun y hy => hm y (List.mem_cons_of_mem x hy))]
      simp [List.takeWhile_cons, hxs]

/-- On a non-empty queue of well-formed requests, the loop of
`LockManagerB::Status` computes exactly the walk described by the
specification. -/
theorem statusLoop_eq_specOwnersRun (r : LockRequest) (rs : List LockRequest)
    (hm : ∀ x ∈ r :: rs, x.mode_ ≠ LockMode.UNLOCKED) :
    LockManagerB.statusLoop (r :: rs) LockMode.EXCLUSIVE [] =
      specOwnersRun (r :: rs) := by
  simp only [LockManagerB.statusLoop, specOwnersRun]
  by_cases hx : r.mode_ = LockMode.EXCLUSIVE
  · rw [if_neg (fun hc => LockMode.noConfusion hc.2), if_pos hx, if_pos hx]
    simp
  · have hxs : r.mode_ = LockMode.SHARED := by
      cases hmx : r.mode_
      · exact absurd hmx (hm r (List.mem_cons_self r rs))
      · rfl
      · exact absurd hmx hx
    rw [if_neg (fun hc => LockMode.noConfusion hc.2), if_neg hx, if_neg hx, hxs,
      statusLoop_shared_run rs _ (fun y hy => hm y (List.mem_cons_of_mem r hy))]
    simp

theorem eraseFirstReq_of_no_match (t : Txn) (q : List LockRequest)
    (h : ∀ r ∈ q, r.txn_ ≠ t) : eraseFirstReq t q = q := by
  induction q with
  | nil => rfl
  | cons r rs ih =>
    unfold eraseFirstReq
    rw [if_neg (h r (List.mem_cons_self r rs)),
      ih (fun x hx => h x (List.mem_cons_of_mem r hx))]

@[simp]
theorem qview_promoteNext (s : LMState) (t : Txn) (k : Key) :
    qview (LockManagerA.promoteNext s t) k = qview s k := by
  unfold LockManagerA.promoteNext
  by_cases h : (s.txn_waits t).getD 0 - 1 = 0 <;> simp [h, qview]

/-- Behaviour of the promotion step of `LockManagerA::Release` on the
wait counter and the Ready Sink. -/
theorem promoteNext_spec (s : LMState) (t : Txn) :
    ((s.txn_waits t).getD 0 = 1 →
      (LockManagerA.promoteNext s t).ready_txns = s.ready_txns ++ [t]
      ∧ (LockManagerA.promoteNext s t).txn_waits t = none)
    ∧ ((s.txn_waits t).getD 0 ≠ 1 →
      (LockManagerA.promoteNext s t).ready_txns = s.ready_txns
      ∧ (LockManagerA.promoteNext s t).txn_waits t
          = some ((s.txn_waits t).getD 0 - 1))
    ∧ (∀ t1, t1 ≠ t →
        (LockManagerA.promoteNext s t).txn_waits t1 = s.txn_waits t1) := by
  unfold LockManagerA.promoteNext
  by_cases h : (s.txn_waits t).getD 0 - 1 = 0
  · have h1 : (s.txn_waits t).getD 0 = 1 := by omega
    refine ⟨fun _ => ⟨by simp [h], by simp [h]⟩, fun hne => absurd h1 hne,
      fun t1 ht => by simp [h, ht]⟩
  · have h1 : (s.txn_waits t).getD 0 ≠ 1 := by omega
    refine ⟨fun he => absurd he h1, fun _ => ⟨by simp [h], by simp [h]⟩,
      fun t1 ht => by simp [h, ht]⟩

/-- `LockManagerA::Release` with the lazy queue creation factored out. -/
theorem releaseA_eq (s : LMState) (t : Txn) (k : Key) :
    LockManagerA.Release s t k =
      (match eraseFirstReq t (qview s k) with
       | [] => setQueue s k (eraseFirstReq t (qview s k))
       | next :: _ =>
         if LockManagerA.removedOwnerFlag t (qview s k)
         then LockManagerA.promoteNext
           (setQueue s k (eraseFirstReq t (qview s k))) next.txn_
         else setQueue s k (eraseFirstReq t (qview s k))) := by
  unfold LockManagerA.Release
  simp only [fst_getLockQueue, setQueue_snd_getLockQueue]

theorem releaseA_qview (s : LMState) (t : Txn) (k : Key) (k1 : Key) :
    qview (LockManagerA.Release s t k) k1
      = if k1 = k then eraseFirstReq t (qview s k) else qview s k1 := by
  rw [releaseA_eq]
  cases hq1 : eraseFirstReq t (qview s k) with
  | nil => simp
  | cons next rs1 =>
    by_cases hf : LockManagerA.removedOwnerFlag t (qview s k) = true <;> simp [hf]

theorem releaseA_of_no_match (s : LMState) (t : Txn) (k : Key)
    (hno : ∀ r ∈ qview s k, r.txn_ ≠ t) :
    LockManagerA.Release s t k = setQueue s k (qview s k) := by
  rw [releaseA_eq, eraseFirstReq_of_no_match t _ hno]
  cases hqv : qview s k with
  | nil => rfl
  | cons r rs =>
    have hflag : LockManagerA.removedOwnerFlag t (r :: rs) = false := by
      simp only [LockManagerA.removedOwnerFlag, decide_eq_false_iff_not]
      exact hno r (hqv ▸ List.mem_cons_self r rs)
    simp only [hflag, Bool.false_eq_true, if_false]

theorem lock_table_promoteOwner (s : LMState) (t : Txn) :
    (LockManagerB.promoteOwner s t).lock_table = s.lock_table := by
  unfold LockManagerB.promoteOwner
  cases h : s.txn_waits t with
  | none => rfl
  | some c => by_cases hc : c - 1 = 0 <;> simp [hc]

@[simp]
theorem qview_promoteOwner (s : LMState) (t : Txn) (k : Key) :
    qview (LockManagerB.promoteOwner s t) k = qview s k := by
  unfold qview
  rw [lock_table_promoteOwner]

@[simp]
theorem qview_promoteOwners (s : LMState) (l : List Txn) (k : Key) :
    qview (LockManagerB.promoteOwners s l) k = qview s k := by
  induction l generalizing s with
  | nil => rfl
  | cons t ts ih =>
    unfold LockManagerB.promoteOwners
    rw [ih, qview_promoteOwner]

/-- `LockManagerB::Release` with the lazy queue creation factored out:
erase, then promote the owners of the mutated queue. -/
theorem releaseB_eq (s : LMState) (t : Txn) (k : Key) :
    LockManagerB.Release s t k
      = LockManagerB.promoteOwners (setQueue s k (eraseFirstReq t (qview s k)))
          (LockManagerB.Status (setQueue s k (eraseFirstReq t (qview s k))) k).2.1 := by
  unfold LockManagerB.Release
  simp only [fst_getLockQueue, setQueue_snd_getLockQueue, snd_snd_StatusB,
    snd_getLockQueue_setQueue]

theorem releaseB_qview (s : LMState) (t : Txn) (k : Key) (k1 : Key) :
    qview (LockManagerB.Release s t k) k1
      = if k1 = k then eraseFirstReq t (qview s k) else qview s k1 := by
  rw [releaseB_eq, qview_promoteOwners, qview_setQueue]

theorem statusA_out_congr (s s1 : LMState) (k : Key) (h : qview s k = qview s1 k) :
    (LockManagerA.Status s k).1 = (LockManagerA.Status s1 k).1
    ∧ (LockManagerA.Status s k).2.1 = (LockManagerA.Status s1 k).2.1 := by
  cases hq : qview s k with
  | nil =>
    have h1 := statusA_nil s k hq
    have h2 := statusA_nil s1 k (h.symm.trans hq)
    exact ⟨h1.1.trans h2.1.symm, h1.2.trans h2.2.symm⟩
  | cons r rs =>
    have h1 := statusA_cons s k r rs hq
    have h2 := statusA_cons s1 k r rs (h.symm.trans hq)
    exact ⟨h1.1.trans h2.1.symm, h1.2.trans h2.2.symm⟩

theorem statusB_out_congr (s s1 : LMState) (k : Key) (h : qview s k = qview s1 k) :
    (LockManagerB.Status s k).1 = (LockManagerB.Status s1 k).1
    ∧ (LockManagerB.Status s k).2.1 = (LockManagerB.Status s1 k).2.1 := by
  cases hq : qview s k with
  | nil =>
    rw [fst_StatusB_nil s k hq, fst_StatusB_nil s1 k (h.symm.trans hq),
      owners_StatusB_nil s k hq, owners_StatusB_nil s1 k (h.symm.trans hq)]
    exact ⟨rfl, rfl⟩
  | cons r rs =>
    rw [fst_StatusB_cons s k r rs hq, fst_StatusB_cons s1 k r rs (h.symm.trans hq),
      owners_StatusB_cons s k r rs hq, owners_StatusB_cons s1 k r rs (h.symm.trans hq)]
    exact ⟨rfl, rfl⟩

/-- When a transaction has at most one request in a queue, the queue left
by the erase loop contains no request of that transaction at all. -/
theorem eraseFirstReq_no_match_of_countP (t : Txn) (q : List LockRequest)
    (h : (q.countP fun r => decide (r.txn_ = t)) ≤ 1) :
    ∀ r ∈ eraseFirstReq t q, r.txn_ ≠ t := by
  induction q with
  | nil => intro r hr; cases hr
  | cons r rs ih =>
    by_cases hr : r.txn_ = t
    · have hc : (rs.countP fun r => decide (r.txn_ = t)) = 0 := by
        rw [List.countP_cons_of_pos _ _ (by simp [hr])] at h
        omega
      intro x hx
      have hx2 : x ∈ rs := by
        unfold eraseFirstReq at hx
        rw [if_pos hr] at hx
        exact hx
      have := List.countP_eq_zero.mp hc x hx2
      simpa using this
    · have hc : (rs.countP fun r => decide (r.txn_ = t)) ≤ 1 := by
        rw [List.countP_cons_of_neg _ _ (by simp [hr])] at h
        exact h
      intro x hx
      unfold eraseFirstReq at hx
      rw [if_neg hr] at hx
      rcases List.mem_cons.mp hx with hx1 | hx2
      · rw [hx1]; exact hr
      · exact ih hc x hx2

theorem waits_promoteOwner_ne (s : LMState) (o : Txn) (t : Txn) (h : t ≠ o) :
    (LockManagerB.promoteOwner s o).txn_waits t = s.txn_waits t := by
  unfold LockManagerB.promoteOwner
  cases hw : s.txn_waits o with
  | none => rfl
  | some c => by_cases hc : c - 1 = 0 <;> simp [hc, h]

theorem waits_promoteOwners_not_mem (s : LMState) (l : List Txn) (t : Txn)
    (h : t ∉ l) :
    (LockManagerB.promoteOwners s l).txn_waits t = s.txn_waits t := by
  induction l generalizing s with
  | nil => rfl
  | cons o os ih =>
    unfold LockManagerB.promoteOwners
    rw [ih _ (fun hm => h (List.mem_cons_of_mem o hm)),
      waits_promoteOwner_ne s o t (fun he => h (he ▸ List.mem_cons_self o os))]

/-- Every transaction in the owner list computed by the loop of
`LockManagerB::Status` comes from the accumulator or from the queue. -/
theorem mem_statusLoop_owners (q : List LockRequest) (m : LockMode) (o : List Txn)
    (x : Txn) (hx : x ∈ (LockManagerB.statusLoop q m o).2) :
    x ∈ o ∨ ∃ r ∈ q, r.txn_ = x := by
  induction q generalizing m o with
  | nil =>
    left
    simpa [LockManagerB.statusLoop] using hx
  | cons r rs ih =>
    unfold LockManagerB.statusLoop at hx
    by_cases hc : r.mode_ = LockMode.EXCLUSIVE ∧ m = LockMode.SHARED
    · rw [if_pos hc] at hx
      exact Or.inl hx
    · rw [if_neg hc] at hx
      by_cases he : r.mode_ = LockMode.EXCLUSIVE
      · rw [if_pos he] at hx
        rcases List.mem_append.mp hx with hx1 | hx2
        · exact Or.inl hx1
        · exact Or.inr ⟨r, List.mem_cons_self r rs, (List.mem_singleton.mp hx2).symm⟩
      · rw [if_neg he] at hx
        rcases ih _ _ hx with hx1 | ⟨r1, hr1, hr2⟩
        · rcases List.mem_append.mp hx1 with hx2 | hx3
          · exact Or.inl hx2
          · exact Or.inr ⟨r, List.mem_cons_self r rs, (List.mem_singleton.mp hx3).symm⟩
        · exact Or.inr ⟨r1, List.mem_cons_of_mem r hr1, hr2⟩

theorem ready_writeLockA (s : LMState) (t : Txn) (k : Key) :
    (LockManagerA.WriteLock s t k).2.ready_txns = s.ready_txns := by
  unfold LockManagerA.WriteLock
  simp [apply_ite LMState.ready_txns]

theorem ready_writeLockB (s : LMState) (t : Txn) (k : Key) :
    (LockManagerB.WriteLock s t k).2.ready_txns = s.ready_txns := by
  unfold LockManagerB.WriteLock
  simp [apply_ite LMState.ready_txns, snd_snd_StatusB]

theorem ready_readLockB (s : LMState) (t : Txn) (k : Key) :
    (LockManagerB.ReadLock s t k).2.ready_txns = s.ready_txns := by
  unfold LockManagerB.ReadLock
  simp [apply_ite LMState.ready_txns, snd_noExclusiveWaiting, snd_snd_StatusB]

theorem waits_none_promoteOwners (s : LMState) (l : List Txn) (x : Txn)
    (h : s.txn_waits x = none) :
    (LockManagerB.promoteOwners s l).txn_waits x = none := by
  induction l generalizing s with
  | nil => exact h
  | cons o os ih =>
    unfold LockManagerB.promoteOwners
    apply ih
    by_cases hx : x = o
    · subst hx
      unfold LockManagerB.promoteOwner
      rw [h]
      exact h
    · rw [waits_promoteOwner_ne s o x hx]
      exact h

/-- The promotion loop of `LockManagerB::Release` appends to the Ready
Sink exactly the transactions whose Wait Counter entry it erases: the sink
is extended by a duplicate-free batch `d`, and a transaction is in `d` iff
it had a Wait Counter entry before the loop and none after it. -/
theorem promoteOwners_delta (s : LMState) (l : List Txn) :
    ∃ d, (LockManagerB.promoteOwners s l).ready_txns = s.ready_txns ++ d
      ∧ d.Nodup
      ∧ ∀ x, x ∈ d ↔ ((s.txn_waits x).isSome
          ∧ (LockManagerB.promoteOwners s l).txn_waits x = none) := by
  induction l generalizing s with
  | nil =>
    refine ⟨[], by simp [LockManagerB.promoteOwners], List.nodup_nil, fun x => ?_⟩
    constructor
    · intro hx
      exact absurd hx (List.not_mem_nil x)
    · intro ⟨h1, h2⟩
      have h3 : s.txn_waits x = none := h2
      rw [h3] at h1
      cases h1
  | cons o os ih =>
    unfold LockManagerB.promoteOwners
    cases hw : s.txn_waits o with
    | none =>
      have hpo : LockManagerB.promoteOwner s o = s := by
        unfold LockManagerB.promoteOwner
        rw [hw]
      rw [hpo]
      exact ih s
    | some c =>
      by_cases hc : c - 1 = 0
      · have hpo : LockManagerB.promoteOwner s o =
            { s with
              txn_waits := fun t1 => if t1 = o then none else s.txn_waits t1,
              ready_txns := s.ready_txns ++ [o] } := by
          unfold LockManagerB.promoteOwner
          rw [hw]
          exact if_pos hc
        rw [hpo]
        obtain ⟨d, hd1, hd2, hd3⟩ := ih
          { s with
            txn_waits := fun t1 => if t1 = o then none else s.txn_waits t1,
            ready_txns := s.ready_txns ++ [o] }
        have hod : o ∉ d := by
          intro hmem
          have := ((hd3 o).mp hmem).1
          simp at this
        refine ⟨o :: d, ?_, List.nodup_cons.mpr ⟨hod, hd2⟩, ?_⟩
        · rw [hd1]
          simp
        · intro x
          by_cases hx : x = o
          · constructor
            · intro _
              refine ⟨by rw [hx, hw]; rfl, ?_⟩
              apply waits_none_promoteOwners
              simp [hx]
            · intro _
              rw [hx]
              exact List.mem_cons_self o d
          · rw [List.mem_cons]
            constructor
            · intro hm
              rcases hm with hm1 | hm2
              · exact absurd hm1 hx
              · have := (hd3 x).mp hm2
                refine ⟨?_, this.2⟩
                have hsx : (if x = o then (none : Option Int) else s.txn_waits x)
                    = s.txn_waits x := by rw [if_neg hx]
                rw [show ({ s with
                    txn_waits := fun t1 => if t1 = o then none else s.txn_waits t1,
                    ready_txns := s.ready_txns ++ [o] } : LMState).txn_waits x
                  = if x = o then none else s.txn_waits x from rfl, hsx] at this
                exact this.1
            · intro ⟨h1, h2⟩
              refine Or.inr ((hd3 x).mpr ⟨?_, h2⟩)
              rw [show ({ s with
                  txn_waits := fun t1 => if t1 = o then none else s.txn_waits t1,
                  ready_txns := s.ready_txns ++ [o] } : LMState).txn_waits x
                = if x = o then none else s.txn_waits x from rfl, if_neg hx]
              exact h1
      · have hpo : LockManagerB.promoteOwner s o =
            { s with
              txn_waits := fun t1 => if t1 = o then some (c - 1)
                else s.txn_waits t1 } := by
          unfold LockManagerB.promoteOwner
          rw [hw]
          exact if_neg hc
        rw [hpo]
        obtain ⟨d, hd1, hd2, hd3⟩ := ih
          { s with
            txn_waits := fun t1 => if t1 = o then some (c - 1) else s.txn_waits t1 }
        refine ⟨d, hd1, hd2, fun x => (hd3 x).trans ?_⟩
        by_cases hx : x = o
        · have e1 : ({ s with
              txn_waits := fun t1 => if t1 = o then some (c - 1)
                else s.txn_waits t1 } : LMState).txn_waits x = some (c - 1) := by
            simp [hx]
          rw [e1, hx, hw]
          simp
        · have e1 : ({ s with
              txn_waits := fun t1 => if t1 = o then some (c - 1)
                else s.txn_waits t1 } : LMState).txn_waits x = s.txn_waits x := by
            simp [hx]
          rw [e1]

/-- `LockManagerA::Release` appends to the Ready Sink exactly the (at
most one) transaction whose Wait Counter entry it erases. -/
theorem releaseA_delta (s : LMState) (t : Txn) (k : Key) :
    ∃ d, (LockManagerA.Release s t k).ready_txns = s.ready_txns ++ d
      ∧ d.Nodup
      ∧ ∀ x, x ∈ d ↔ ((s.txn_waits x).isSome
          ∧ (LockManagerA.Release s t k).txn_waits x = none) := by
  rw [releaseA_eq]
  cases hq1 : eraseFirstReq t (qview s k) with
  | nil =>
    refine ⟨[], by simp, List.nodup_nil, fun x => ?_⟩
    constructor
    · intro hx
      exact absurd hx (List.not_mem_nil x)
    · intro ⟨h1, h2⟩
      have h3 : s.txn_waits x = none := h2
      rw [h3] at h1
      cases h1
  | cons next rs1 =>
    by_cases hf : LockManagerA.removedOwnerFlag t (qview s k) = true
    · simp only [hf, if_true]
      by_cases h0 : ((setQueue s k (next :: rs1)).txn_waits next.txn_).getD 0 = 1
      · have hps := (promoteNext_spec (setQueue s k (next :: rs1)) next.txn_).1 h0
        refine ⟨[next.txn_], hps.1, by simp, fun x => ?_⟩
        by_cases hx : x = next.txn_
        · constructor
          · intro _
            refine ⟨?_, by rw [hx]; exact hps.2⟩
            have h3 : (s.txn_waits next.txn_).getD 0 = 1 := h0
            rw [hx]
            cases hw : s.txn_waits next.txn_ with
            | none =>
              rw [hw] at h3
              exact absurd h3 (by decide)
            | some c => rfl
          · intro _
            rw [hx]
            exact List.mem_cons_self next.txn_ []
        · constructor
          · intro hm
            exact absurd (List.mem_singleton.mp hm) hx
          · intro ⟨h1, h2⟩
            have h4 : (LockManagerA.promoteNext (setQueue s k (next :: rs1))
                next.txn_).txn_waits x = s.txn_waits x :=
              (promoteNext_spec (setQueue s k (next :: rs1)) next.txn_).2.2 x hx
            rw [h4.symm.trans h2] at h1
            cases h1
      · have hps := (promoteNext_spec (setQueue s k (next :: rs1)) next.txn_).2.1 h0
        refine ⟨[], by rw [hps.1]; simp, List.nodup_nil, fun x => ?_⟩
        constructor
        · intro hx
          exact absurd hx (List.not_mem_nil x)
        · intro ⟨h1, h2⟩
          by_cases hx : x = next.txn_
          · rw [hx, hps.2] at h2
            cases h2
          · have h4 : (LockManagerA.promoteNext (setQueue s k (next :: rs1))
                next.txn_).txn_waits x = s.txn_waits x :=
              (promoteNext_spec (setQueue s k (next :: rs1)) next.txn_).2.2 x hx
            rw [h4.symm.trans h2] at h1
            cases h1
    · rw [Bool.not_eq_true] at hf
      simp only [hf, Bool.false_eq_true, if_false]
      refine ⟨[], by simp, List.nodup_nil, fun x => ?_⟩
      constructor
      · intro hx
        exact absurd hx (List.not_mem_nil x)
      · intro ⟨h1, h2⟩
        have h3 : s.txn_waits x = none := h2
        rw [h3] at h1
        cases h1

/-- `LockManagerB::Release` appends to the Ready Sink exactly the
transactions whose Wait Counter entries it erases. -/
theorem releaseB_delta (s : LMState) (t : Txn) (k : Key) :
    ∃ d, (LockManagerB.Release s t k).ready_txns = s.ready_txns ++ d
      ∧ d.Nodup
      ∧ ∀ x, x ∈ d ↔ ((s.txn_waits x).isSome
          ∧ (LockManagerB.Release s t k).txn_waits x = none) := by
  rw [releaseB_eq]
  exact promoteOwners_delta (setQueue s k (eraseFirstReq t (qview s k))) _

/-! ### Canonical forms of the locking operations -/

theorem writeLockA_eq (s : LMState) (t : Txn) (k : Key) :
    LockManagerA.WriteLock s t k =
      ((qview s k).isEmpty,
       if (qview s k).isEmpty = true
       then setQueue s k (qview s k ++ [⟨LockMode.EXCLUSIVE, t⟩])
       else incWaits (setQueue s k (qview s k ++ [⟨LockMode.EXCLUSIVE, t⟩])) t) := by
  unfold LockManagerA.WriteLock
  simp only [fst_getLockQueue, setQueue_snd_getLockQueue]

theorem writeLockB_eq (s : LMState) (t : Txn) (k : Key) :
    LockManagerB.WriteLock s t k =
      (decide ((LockManagerB.Status s k).1 = LockMode.UNLOCKED),
       if decide ((LockManagerB.Status s k).1 = LockMode.UNLOCKED) = true
       then setQueue s k (qview s k ++ [⟨LockMode.EXCLUSIVE, t⟩])
       else incWaits (setQueue s k (qview s k ++ [⟨LockMode.EXCLUSIVE, t⟩])) t) := by
  unfold LockManagerB.WriteLock
  simp only [snd_snd_StatusB, qview_snd_getLockQueue, setQueue_snd_getLockQueue]

theorem readLockB_eq (s : LMState) (t : Txn) (k : Key) :
    LockManagerB.ReadLock s t k =
      ((decide ((LockManagerB.Status s k).1 = LockMode.UNLOCKED)
         || (qview s k).all fun lr => !decide (lr.mode_ = LockMode.EXCLUSIVE)),
       if (decide ((LockManagerB.Status s k).1 = LockMode.UNLOCKED)
           || (qview s k).all fun lr => !decide (lr.mode_ = LockMode.EXCLUSIVE)) = true
       then setQueue s k (qview s k ++ [⟨LockMode.SHARED, t⟩])
       else incWaits (setQueue s k (qview s k ++ [⟨LockMode.SHARED, t⟩])) t) := by
  have hS : (!decide (LockMode.SHARED = LockMode.EXCLUSIVE)) = true := by decide
  conv_lhs => unfold LockManagerB.ReadLock
  simp only [snd_snd_StatusB, qview_snd_getLockQueue, setQueue_snd_getLockQueue,
    snd_noExclusiveWaiting, fst_noExclusiveWaiting, snd_getLockQueue_setQueue,
    qview_setQueue, if_pos, List.all_append, List.all_cons, List.all_nil,
    Bool.and_true, hS]

/-! ### Congruence of the operations under observational equality -/

theorem obsEq_setQueue (s s1 : LMState) (k : Key) (q : List LockRequest)
    (h : obsEq s s1) : obsEq (setQueue s k q) (setQueue s1 k q) := by
  obtain ⟨hq, hw, hr⟩ := h
  refine ⟨fun k1 => ?_, hw, hr⟩
  by_cases hk : k1 = k <;> simp [hk, hq k1]

theorem obsEq_incWaits (s s1 : LMState) (t : Txn) (h : obsEq s s1) :
    obsEq (incWaits s t) (incWaits s1 t) := by
  obtain ⟨hq, hw, hr⟩ := h
  unfold incWaits
  rw [hw, hr]
  exact ⟨fun k1 => hq k1, rfl, rfl⟩

theorem obsEq_promoteNext (s s1 : LMState) (t : Txn) (h : obsEq s s1) :
    obsEq (LockManagerA.promoteNext s t) (LockManagerA.promoteNext s1 t) := by
  obtain ⟨hq, hw, hr⟩ := h
  unfold LockManagerA.promoteNext
  rw [hw, hr]
  by_cases hc : (s1.txn_waits t).getD 0 - 1 = 0
  · rw [if_pos hc, if_pos hc]
    exact ⟨fun k1 => hq k1, rfl, rfl⟩
  · rw [if_neg hc, if_neg hc]
    exact ⟨fun k1 => hq k1, rfl, rfl⟩

theorem promoteOwner_none (s : LMState) (o : Txn) (h : s.txn_waits o = none) :
    LockManagerB.promoteOwner s o = s := by
  unfold LockManagerB.promoteOwner
  rw [h]

theorem promoteOwner_push (s : LMState) (o : Txn) (c : Int)
    (h : s.txn_waits o = some c) (hc : c - 1 = 0) :
    LockManagerB.promoteOwner s o =
      { s with
        txn_waits := fun t1 => if t1 = o then none else s.txn_waits t1,
        ready_txns := s.ready_txns ++ [o] } := by
  unfold LockManagerB.promoteOwner
  rw [h]
  exact if_pos hc

theorem promoteOwner_dec (s : LMState) (o : Txn) (c : Int)
    (h : s.txn_waits o = some c) (hc : ¬c - 1 = 0) :
    LockManagerB.promoteOwner s o =
      { s with
        txn_waits := fun t1 => if t1 = o then some (c - 1) else s.txn_waits t1 } := by
  unfold LockManagerB.promoteOwner
  rw [h]
  exact if_neg hc

theorem obsEq_promoteOwner (s s1 : LMState) (o : Txn) (h : obsEq s s1) :
    obsEq (LockManagerB.promoteOwner s o) (LockManagerB.promoteOwner s1 o) := by
  obtain ⟨hq, hw, hr⟩ := h
  cases hwo : s.txn_waits o with
  | none =>
    rw [promoteOwner_none s o hwo, promoteOwner_none s1 o (by rw [← hw]; exact hwo)]
    exact ⟨hq, hw, hr⟩
  | some c =>
    by_cases hc : c - 1 = 0
    · rw [promoteOwner_push s o c hwo hc,
        promoteOwner_push s1 o c (by rw [← hw]; exact hwo) hc]
      exact ⟨fun k1 => hq k1, by rw [hw], by rw [hr]⟩
    · rw [promoteOwner_dec s o c hwo hc,
        promoteOwner_dec s1 o c (by rw [← hw]; exact hwo) hc]
      exact ⟨fun k1 => hq k1, by rw [hw], by rw [hr]⟩

theorem obsEq_promoteOwners (s s1 : LMState) (l : List Txn) (h : obsEq s s1) :
    obsEq (LockManagerB.promoteOwners s l) (LockManagerB.promoteOwners s1 l) := by
  induction l generalizing s s1 with
  | nil => exact h
  | cons o os ih =>
    unfold LockManagerB.promoteOwners
    exact ih _ _ (obsEq_promoteOwner s s1 o h)

theorem writeLockA_congr (s s1 : LMState) (t : Txn) (k : Key) (h : obsEq s s1) :
    (LockManagerA.WriteLock s t k).1 = (LockManagerA.WriteLock s1 t k).1
    ∧ obsEq (LockManagerA.WriteLock s t k).2 (LockManagerA.WriteLock s1 t k).2 := by
  have hq := h.1
  rw [writeLockA_eq, writeLockA_eq, hq k]
  refine ⟨rfl, ?_⟩
  by_cases he : (qview s1 k).isEmpty = true
  · rw [if_pos he, if_pos he]
    exact obsEq_setQueue s s1 k _ h
  · rw [if_neg he, if_neg he]
    exact obsEq_incWaits _ _ t (obsEq_setQueue s s1 k _ h)

theorem releaseA_congr (s s1 : LMState) (t : Txn) (k : Key) (h : obsEq s s1) :
    obsEq (LockManagerA.Release s t k) (LockManagerA.Release s1 t k) := by
  have hq := h.1
  rw [releaseA_eq, releaseA_eq, hq k]
  cases hq1 : eraseFirstReq t (qview s1 k) with
  | nil => exact obsEq_setQueue s s1 k _ h
  | cons next rs1 =>
    by_cases hf : LockManagerA.removedOwnerFlag t (qview s1 k) = true
    · simp only [hf, if_true]
      exact obsEq_promoteNext _ _ next.txn_ (obsEq_setQueue s s1 k _ h)
    · rw [Bool.not_eq_true] at hf
      simp only [hf, Bool.false_eq_true, if_false]
      exact obsEq_setQueue s s1 k _ h

theorem writeLockB_congr (s s1 : LMState) (t : Txn) (k : Key) (h : obsEq s s1) :
    (LockManagerB.WriteLock s t k).1 = (LockManagerB.WriteLock s1 t k).1
    ∧ obsEq (LockManagerB.WriteLock s t k).2 (LockManagerB.WriteLock s1 t k).2 := by
  have hq := h.1
  have hst := (statusB_out_congr s s1 k (hq k)).1
  rw [writeLockB_eq, writeLockB_eq, hst, hq k]
  refine ⟨rfl, ?_⟩
  by_cases hg : decide ((LockManagerB.Status s1 k).1 = LockMode.UNLOCKED) = true
  · rw [if_pos hg, if_pos hg]
    exact obsEq_setQueue s s1 k _ h
  · rw [if_neg hg, if_neg hg]
    exact obsEq_incWaits _ _ t (obsEq_setQueue s s1 k _ h)

theorem readLockB_congr (s s1 : LMState) (t : Txn) (k : Key) (h : obsEq s s1) :
    (LockManagerB.ReadLock s t k).1 = (LockManagerB.ReadLock s1 t k).1
    ∧ obsEq (LockManagerB.ReadLock s t k).2 (LockManagerB.ReadLock s1 t k).2 := by
  have hq := h.1
  have hst := (statusB_out_congr s s1 k (hq k)).1
  rw [readLockB_eq, readLockB_eq, hst, hq k]
  refine ⟨rfl, ?_⟩
  by_cases hg : (decide ((LockManagerB.Status s1 k).1 = LockMode.UNLOCKED)
      || (qview s1 k).all fun lr => !decide (lr.mode_ = LockMode.EXCLUSIVE)) = true
  · rw [if_pos hg, if_pos hg]
    exact obsEq_setQueue s s1 k _ h
  · rw [if_neg hg, if_neg hg]
    exact obsEq_incWaits _ _ t (obsEq_setQueue s s1 k _ h)

theorem releaseB_congr (s s1 : LMState) (t : Txn) (k : Key) (h : obsEq s s1) :
    obsEq (LockManagerB.Release s t k) (LockManagerB.Release s1 t k) := by
  have hq := h.1
  rw [releaseB_eq, releaseB_eq, hq k]
  have hq2 : qview (setQueue s k (eraseFirstReq t (qview s1 k))) k
      = qview (setQueue s1 k (eraseFirstReq t (qview s1 k))) k := by simp
  have hown := (statusB_out_congr _ _ k hq2).2
  rw [hown]
  exact obsEq_promoteOwners _ _ _ (obsEq_setQueue s s1 k _ h)

/-! ### Claim theorems -/

/-- C7: under policy A, `WriteLock(txn, key)` appends an EXCLUSIVE request
for `txn` to `key`'s queue and returns `true` iff the queue was empty
before the append; when it returns `false` it increments `txn`'s Wait
Counter by exactly one; it changes no other queue, no other Wait Counter
entry, and never appends to the Ready Sink. -/
theorem C7_writeLockA_characterization (s : LMState) (t : Txn) (k : Key) :
    (LockManagerA.WriteLock s t k).1 = (qview s k).isEmpty
    ∧ qview (LockManagerA.WriteLock s t k).2 k = qview s k ++ [⟨LockMode.EXCLUSIVE, t⟩]
    ∧ (∀ k1, k1 ≠ k → qview (LockManagerA.WriteLock s t k).2 k1 = qview s k1)
    ∧ ((LockManagerA.WriteLock s t k).1 = false →
        (LockManagerA.WriteLock s t k).2.txn_waits t = some ((s.txn_waits t).getD 0 + 1))
    ∧ ((LockManagerA.WriteLock s t k).1 = true →
        (LockManagerA.WriteLock s t k).2.txn_waits = s.txn_waits)
    ∧ (∀ t1, t1 ≠ t → (LockManagerA.WriteLock s t k).2.txn_waits t1 = s.txn_waits t1)
    ∧ (LockManagerA.WriteLock s t k).2.ready_txns = s.ready_txns := by
  unfold LockManagerA.WriteLock
  simp only [setQueue_snd_getLockQueue, fst_getLockQueue]
  by_cases he : (qview s k).isEmpty
  · refine ⟨by simp [he], by simp [he], fun k1 hk => by simp [he, hk], by simp [he],
      fun _ => by simp [he], fun t1 ht => by simp [he], by simp [he]⟩
  · refine ⟨by simp [he], by simp [he], fun k1 hk => by simp [he, hk],
      fun _ => by simp [he, txn_waits_incWaits],
      by simp [he], fun t1 ht => by simp [he, txn_waits_incWaits, ht], by simp [he]⟩

/-- Witness for C7 at a concrete state: a second `WriteLock` on a busy
key is not granted and increments the wait count to 1. -/
theorem C7_writeLockA_characterization_witness :
    (LockManagerA.WriteLock (LockManagerA.WriteLock initState 1 0).2 2 0).2.txn_waits 2
      = some 1 :=
  (C7_writeLockA_characterization (LockManagerA.WriteLock initState 1 0).2 2 0).2.2.2.1
    (by decide)

/-- C8: under policy A, `ReadLock` and `WriteLock` are extensionally equal
— the source delegates `ReadLock` directly to `WriteLock`. -/
theorem C8_readLockA_eq_writeLockA (s : LMState) (t : Txn) (k : Key) :
    LockManagerA.ReadLock s t k = LockManagerA.WriteLock s t k := rfl

/-- C1 counterexample: a transaction can be appended to the Ready Sink
twice.  Policy A, one key: WriteLock(T1) grants, WriteLock(T2) waits,
Release(T1) promotes T2 (first append); Release(T2) empties the queue;
the same two lock calls again and Release(T1) promote T2 a second time,
so the Ready Sink holds T2 twice — the code tracks no per-transaction
history, only the Wait Counter, which is re-created by a later
not-granted request. -/
theorem C1_ready_exactly_once_counterexample :
    let a2 := (LockManagerA.WriteLock (LockManagerA.WriteLock initState 1 0).2 2 0).2
    let a4 := LockManagerA.Release (LockManagerA.Release a2 1 0) 2 0
    let a6 := (LockManagerA.WriteLock (LockManagerA.WriteLock a4 1 0).2 2 0).2
    (LockManagerA.Release a6 1 0).ready_txns = [2, 2] := by
  decide

/-- C1 amended: in every single operation, a transaction is appended to
the Ready Sink exactly when its Wait Counter entry is removed (the count
having been decremented to zero), and the two happen in the same Release
call; ReadLock and WriteLock never append; within a single Release no
transaction is appended twice.  Over a whole call sequence, however, a
transaction may be appended more than once (its Wait Counter entry can be
re-created by a later not-granted request, see the counterexample), and
under policy B it may be appended while a request of its is still
ungranted, because every Release re-promotes the key's current owners
(see C2's counterexample). -/
theorem C1_ready_promotion_amended (s : LMState) (t : Txn) (k : Key) :
    (LockManagerA.WriteLock s t k).2.ready_txns = s.ready_txns
    ∧ (LockManagerA.ReadLock s t k).2.ready_txns = s.ready_txns
    ∧ (LockManagerB.WriteLock s t k).2.ready_txns = s.ready_txns
    ∧ (LockManagerB.ReadLock s t k).2.ready_txns = s.ready_txns
    ∧ (∃ d, (LockManagerA.Release s t k).ready_txns = s.ready_txns ++ d
        ∧ d.Nodup
        ∧ ∀ x, x ∈ d ↔ ((s.txn_waits x).isSome
            ∧ (LockManagerA.Release s t k).txn_waits x = none))
    ∧ (∃ d, (LockManagerB.Release s t k).ready_txns = s.ready_txns ++ d
        ∧ d.Nodup
        ∧ ∀ x, x ∈ d ↔ ((s.txn_waits x).isSome
            ∧ (LockManagerB.Release s t k).txn_waits x = none)) :=
  ⟨ready_writeLockA s t k, ready_writeLockA s t k, ready_writeLockB s t k,
    ready_readLockB s t k, releaseA_delta s t k, releaseB_delta s t k⟩

/-- C2 counterexample: under policy B, releasing a (txn, key) pair with
no request in the key's queue is NOT always a no-op.  Build the state:
ReadLock(T1, x) grants; WriteLock(T2, x) waits (count 1); WriteLock(T8, y)
grants; WriteLock(T2, y) waits (count 2); Release(T1, x) makes T2 the
owner of x (count 1).  Now `Release(99, x)` — transaction 99 has no
request anywhere in x's queue — still recomputes x's owners and promotes
T2: its count drops to 0, it is erased from the Wait Counter and pushed
to the Ready Sink, although its request on y is still ungranted. -/
theorem C2_release_absent_counterexample :
    let s1 := (LockManagerB.ReadLock initState 1 0).2
    let s2 := (LockManagerB.WriteLock s1 2 0).2
    let s3 := (LockManagerB.WriteLock s2 8 1).2
    let s4 := (LockManagerB.WriteLock s3 2 1).2
    let s5 := LockManagerB.Release s4 1 0
    ((qview s5 0).all fun r => !decide (r.txn_ = 99)) = true
    ∧ s5.ready_txns = []
    ∧ s5.txn_waits 2 = some 1
    ∧ (LockManagerB.Release s5 99 0).ready_txns = [2]
    ∧ (LockManagerB.Release s5 99 0).txn_waits 2 = none := by
  decide

/-- C2 amended: under policy A, releasing a (txn, key) pair with no
matching queued request leaves every key's queue contents, the owners
reported by `Status`, the Wait Counter, and the Ready Sink unchanged.
Under policy B it leaves every key's queue contents (hence the owners
reported by `Status`) unchanged, but the Release still re-runs the
promotion loop over the key's current owners, so the Wait Counter and the
Ready Sink can change (see the counterexample). -/
theorem C2_release_absent_amended (s : LMState) (t : Txn) (k : Key)
    (hno : ∀ r ∈ qview s k, r.txn_ ≠ t) :
    ((∀ k1, qview (LockManagerA.Release s t k) k1 = qview s k1)
     ∧ (∀ k1, (LockManagerA.Status (LockManagerA.Release s t k) k1).1
          = (LockManagerA.Status s k1).1
        ∧ (LockManagerA.Status (LockManagerA.Release s t k) k1).2.1
          = (LockManagerA.Status s k1).2.1)
     ∧ (LockManagerA.Release s t k).txn_waits = s.txn_waits
     ∧ (LockManagerA.Release s t k).ready_txns = s.ready_txns)
    ∧ ((∀ k1, qview (LockManagerB.Release s t k) k1 = qview s k1)
       ∧ (∀ k1, (LockManagerB.Status (LockManagerB.Release s t k) k1).1
            = (LockManagerB.Status s k1).1
          ∧ (LockManagerB.Status (LockManagerB.Release s t k) k1).2.1
            = (LockManagerB.Status s k1).2.1)) := by
  have hA : ∀ k1, qview (LockManagerA.Release s t k) k1 = qview s k1 := by
    intro k1
    rw [releaseA_qview]
    by_cases hk : k1 = k
    · rw [if_pos hk, hk, eraseFirstReq_of_no_match t _ hno]
    · rw [if_neg hk]
  have hB : ∀ k1, qview (LockManagerB.Release s t k) k1 = qview s k1 := by
    intro k1
    rw [releaseB_qview]
    by_cases hk : k1 = k
    · rw [if_pos hk, hk, eraseFirstReq_of_no_match t _ hno]
    · rw [if_neg hk]
  refine ⟨⟨hA, fun k1 => statusA_out_congr _ _ k1 (hA k1), ?_, ?_⟩,
    hB, fun k1 => statusB_out_congr _ _ k1 (hB k1)⟩
  · rw [releaseA_of_no_match s t k hno]
    rfl
  · rw [releaseA_of_no_match s t k hno]
    rfl

/-- Witness for C2 amended, at a state whose key-0 queue `[E:T1]` has no
request by transaction 2: both releases leave the queue unchanged. -/
theorem C2_release_absent_amended_witness :
    qview (LockManagerA.Release (LockManagerA.WriteLock initState 1 0).2 2 0) 0
      = [⟨LockMode.EXCLUSIVE, 1⟩]
    ∧ qview (LockManagerB.Release (LockManagerA.WriteLock initState 1 0).2 2 0) 0
      = [⟨LockMode.EXCLUSIVE, 1⟩] := by
  have h := C2_release_absent_amended (LockManagerA.WriteLock initState 1 0).2 2 0
    (by decide)
  exact ⟨(h.1.1 0).trans (by decide), (h.2.1 0).trans (by decide)⟩

/-- C9: under both policies `Status(key, owners)` is observably pure: it
changes no queue contents, no Wait Counter entry, and not the Ready Sink
(its only state effect is the lazy creation of an empty queue for a
previously unseen key), and that effect does not alter the result of any
subsequent operation: any two observationally equal states — equal queue
contents everywhere, equal wait counters, equal sink — yield the same
outputs and observationally equal states under every operation of either
policy. -/
theorem C9_status_observably_pure (s : LMState) (k : Key) :
    (∀ k1, qview (LockManagerA.Status s k).2.2 k1 = qview s k1)
    ∧ (LockManagerA.Status s k).2.2.txn_waits = s.txn_waits
    ∧ (LockManagerA.Status s k).2.2.ready_txns = s.ready_txns
    ∧ (∀ k1, qview (LockManagerB.Status s k).2.2 k1 = qview s k1)
    ∧ (LockManagerB.Status s k).2.2.txn_waits = s.txn_waits
    ∧ (LockManagerB.Status s k).2.2.ready_txns = s.ready_txns
    ∧ (∀ s1 s2 : LMState, obsEq s1 s2 → ∀ t k1,
        (LockManagerA.WriteLock s1 t k1).1 = (LockManagerA.WriteLock s2 t k1).1
        ∧ obsEq (LockManagerA.WriteLock s1 t k1).2 (LockManagerA.WriteLock s2 t k1).2
        ∧ (LockManagerA.ReadLock s1 t k1).1 = (LockManagerA.ReadLock s2 t k1).1
        ∧ obsEq (LockManagerA.ReadLock s1 t k1).2 (LockManagerA.ReadLock s2 t k1).2
        ∧ obsEq (LockManagerA.Release s1 t k1) (LockManagerA.Release s2 t k1)
        ∧ (LockManagerA.Status s1 k1).1 = (LockManagerA.Status s2 k1).1
        ∧ (LockManagerA.Status s1 k1).2.1 = (LockManagerA.Status s2 k1).2.1
        ∧ (LockManagerB.WriteLock s1 t k1).1 = (LockManagerB.WriteLock s2 t k1).1
        ∧ obsEq (LockManagerB.WriteLock s1 t k1).2 (LockManagerB.WriteLock s2 t k1).2
        ∧ (LockManagerB.ReadLock s1 t k1).1 = (LockManagerB.ReadLock s2 t k1).1
        ∧ obsEq (LockManagerB.ReadLock s1 t k1).2 (LockManagerB.ReadLock s2 t k1).2
        ∧ obsEq (LockManagerB.Release s1 t k1) (LockManagerB.Release s2 t k1)
        ∧ (LockManagerB.Status s1 k1).1 = (LockManagerB.Status s2 k1).1
        ∧ (LockManagerB.Status s1 k1).2.1 = (LockManagerB.Status s2 k1).2.1) := by
  refine ⟨?_, ?_, ?_, ?_, ?_, ?_, ?_⟩
  · rw [snd_snd_StatusA]
    exact fun k1 => qview_snd_getLockQueue s k k1
  · rw [snd_snd_StatusA]
    exact txn_waits_snd_getLockQueue s k
  · rw [snd_snd_StatusA]
    exact ready_snd_getLockQueue s k
  · rw [snd_snd_StatusB]
    exact fun k1 => qview_snd_getLockQueue s k k1
  · rw [snd_snd_StatusB]
    exact txn_waits_snd_getLockQueue s k
  · rw [snd_snd_StatusB]
    exact ready_snd_getLockQueue s k
  · intro s1 s2 h t k1
    exact ⟨(writeLockA_congr s1 s2 t k1 h).1, (writeLockA_congr s1 s2 t k1 h).2,
      (writeLockA_congr s1 s2 t k1 h).1, (writeLockA_congr s1 s2 t k1 h).2,
      releaseA_congr s1 s2 t k1 h,
      (statusA_out_congr s1 s2 k1 (h.1 k1)).1, (statusA_out_congr s1 s2 k1 (h.1 k1)).2,
      (writeLockB_congr s1 s2 t k1 h).1, (writeLockB_congr s1 s2 t k1 h).2,
      (readLockB_congr s1 s2 t k1 h).1, (readLockB_congr s1 s2 t k1 h).2,
      releaseB_congr s1 s2 t k1 h,
      (statusB_out_congr s1 s2 k1 (h.1 k1)).1, (statusB_out_congr s1 s2 k1 (h.1 k1)).2⟩

/-- Witness for C9: running `Status` on a fresh manager creates key 0's
empty queue, yet a following `WriteLock` returns the same answer as on
the untouched state. -/
theorem C9_status_observably_pure_witness :
    (LockManagerA.WriteLock (LockManagerA.Status initState 0).2.2 1 0).1
      = (LockManagerA.WriteLock initState 1 0).1 := by
  have h := C9_status_observably_pure initState 0
  exact (h.2.2.2.2.2.2 (LockManagerA.Status initState 0).2.2 initState
    ⟨h.1, h.2.1, h.2.2.1⟩ 1 0).1

/-- C10 counterexample: releasing a transaction's own request CAN
decrement and erase that transaction's Wait Counter entry.  Under policy
A, after WriteLock(T1, x) (granted) and a second WriteLock(T1, x) (queued,
wait count 1), Release(T1, x) removes the front request and then promotes
the new front — which is T1's own duplicate request: T1's entry is
decremented to zero, erased, and T1 is pushed to the Ready Sink. -/
theorem C10_release_own_entry_counterexample :
    let c2 := (LockManagerA.WriteLock (LockManagerA.WriteLock initState 1 0).2 1 0).2
    c2.txn_waits 1 = some 1
    ∧ (LockManagerA.Release c2 1 0).txn_waits 1 = none
    ∧ (LockManagerA.Release c2 1 0).ready_txns = c2.ready_txns ++ [1] := by
  decide

/-- C10 amended: provided the releasing transaction has at most one
request in the key's queue (the documented usage: at most one live
request per (txn, key)), `Release(txn, key)` under either policy never
decrements or erases `txn`'s own Wait Counter entry — the request is
removed from the key's queue but `txn`'s wait count is untouched. -/
theorem C10_release_own_entry_amended (s : LMState) (t : Txn) (k : Key)
    (h1 : ((qview s k).countP fun r => decide (r.txn_ = t)) ≤ 1) :
    (LockManagerA.Release s t k).txn_waits t = s.txn_waits t
    ∧ (LockManagerB.Release s t k).txn_waits t = s.txn_waits t
    ∧ qview (LockManagerA.Release s t k) k = eraseFirstReq t (qview s k)
    ∧ qview (LockManagerB.Release s t k) k = eraseFirstReq t (qview s k) := by
  have hq1all := eraseFirstReq_no_match_of_countP t (qview s k) h1
  refine ⟨?_, ?_, by rw [releaseA_qview]; simp, by rw [releaseB_qview]; simp⟩
  · rw [releaseA_eq]
    cases hq1 : eraseFirstReq t (qview s k) with
    | nil => rfl
    | cons next rs1 =>
      have hnext : next.txn_ ≠ t :=
        hq1all next (by rw [hq1]; exact List.mem_cons_self _ _)
      by_cases hf : LockManagerA.removedOwnerFlag t (qview s k) = true
      · simp only [hf, if_true]
        exact (promoteNext_spec (setQueue s k (next :: rs1)) next.txn_).2.2 t
          (Ne.symm hnext)
      · rw [Bool.not_eq_true] at hf
        simp only [hf, Bool.false_eq_true, if_false]
        rfl
  · rw [releaseB_eq]
    have hq2 : qview (setQueue s k (eraseFirstReq t (qview s k))) k
        = eraseFirstReq t (qview s k) := by simp
    have howners :
        t ∉ (LockManagerB.Status (setQueue s k (eraseFirstReq t (qview s k))) k).2.1 := by
      intro hmem
      cases hqv : qview (setQueue s k (eraseFirstReq t (qview s k))) k with
      | nil => rw [owners_StatusB_nil _ k hqv] at hmem; cases hmem
      | cons r rs =>
        rw [owners_StatusB_cons _ k r rs hqv] at hmem
        rcases mem_statusLoop_owners _ _ _ _ hmem with h0 | ⟨r1, hr1, hr2⟩
        · cases h0
        · exact hq1all r1 (by rw [← hq2, hqv]; exact hr1) hr2
    rw [waits_promoteOwners_not_mem _ _ t howners]
    rfl

/-- Witness for C10 amended: with the single-request queue `[E:T1]` on
key 0, releasing T1 leaves T1's (absent) Wait Counter entry untouched. -/
theorem C10_release_own_entry_amended_witness :
    (LockManagerA.Release (LockManagerA.WriteLock initState 1 0).2 1 0).txn_waits 1
      = ((LockManagerA.WriteLock initState 1 0).2).txn_waits 1 :=
  (C10_release_own_entry_amended (LockManagerA.WriteLock initState 1 0).2 1 0
    (by decide)).1

/-- C3: under policy B, `ReadLock(txn, key)` computes `Status` before
inserting, appends a SHARED request for `txn`, and returns
`granted = (status before the insert was UNLOCKED) OR (no EXCLUSIVE
request exists anywhere in key's queue)`; it increments `txn`'s Wait
Counter exactly when not granted, changes no other queue or counter
entry, and never appends to the Ready Sink.  In particular, once an
EXCLUSIVE request is queued on the key (the queue holding only
well-formed SHARED/EXCLUSIVE requests, the only ones the API creates),
every subsequent `ReadLock` on that key returns `false`.  (The C++
evaluates `_noExclusiveWaiting` after the `push_back`, but the new
request is SHARED, so the scan over the pre-insert queue gives the same
answer.) -/
theorem C3_readLockB_characterization (s : LMState) (t : Txn) (k : Key) :
    (LockManagerB.ReadLock s t k).1
        = (decide ((LockManagerB.Status s k).1 = LockMode.UNLOCKED)
           || (qview s k).all fun lr => !decide (lr.mode_ = LockMode.EXCLUSIVE))
    ∧ qview (LockManagerB.ReadLock s t k).2 k = qview s k ++ [⟨LockMode.SHARED, t⟩]
    ∧ (∀ k1, k1 ≠ k → qview (LockManagerB.ReadLock s t k).2 k1 = qview s k1)
    ∧ ((LockManagerB.ReadLock s t k).1 = false →
        (LockManagerB.ReadLock s t k).2.txn_waits t = some ((s.txn_waits t).getD 0 + 1))
    ∧ ((LockManagerB.ReadLock s t k).1 = true →
        (LockManagerB.ReadLock s t k).2.txn_waits = s.txn_waits)
    ∧ (∀ t1, t1 ≠ t → (LockManagerB.ReadLock s t k).2.txn_waits t1 = s.txn_waits t1)
    ∧ (LockManagerB.ReadLock s t k).2.ready_txns = s.ready_txns
    ∧ ((∀ r ∈ qview s k, r.mode_ ≠ LockMode.UNLOCKED) →
        (∃ lr ∈ qview s k, lr.mode_ = LockMode.EXCLUSIVE) →
        (LockManagerB.ReadLock s t k).1 = false) := by
  have hS : (!decide (LockMode.SHARED = LockMode.EXCLUSIVE)) = true := by decide
  have heq : LockManagerB.ReadLock s t k =
      (decide ((LockManagerB.Status s k).1 = LockMode.UNLOCKED)
         || (qview s k).all fun lr => !decide (lr.mode_ = LockMode.EXCLUSIVE),
       if (decide ((LockManagerB.Status s k).1 = LockMode.UNLOCKED)
           || (qview s k).all fun lr => !decide (lr.mode_ = LockMode.EXCLUSIVE)) = true
       then setQueue s k (qview s k ++ [⟨LockMode.SHARED, t⟩])
       else incWaits (setQueue s k (qview s k ++ [⟨LockMode.SHARED, t⟩])) t) := by
    conv_lhs => unfold LockManagerB.ReadLock
    simp only [snd_snd_StatusB, qview_snd_getLockQueue, setQueue_snd_getLockQueue,
      snd_noExclusiveWaiting, fst_noExclusiveWaiting, snd_getLockQueue_setQueue,
      qview_setQueue, if_pos, List.all_append, List.all_cons, List.all_nil,
      Bool.and_true, hS]
  rw [heq]
  cases hg : (decide ((LockManagerB.Status s k).1 = LockMode.UNLOCKED)
      || (qview s k).all fun lr => !decide (lr.mode_ = LockMode.EXCLUSIVE)) with
  | false =>
    refine ⟨rfl, by simp, fun k1 hk => by simp [hk],
      fun _ => by simp [txn_waits_incWaits],
      fun h => Bool.noConfusion h,
      fun t1 ht => by simp [txn_waits_incWaits, ht],
      by simp, fun _ _ => rfl⟩
  | true =>
    refine ⟨rfl, by simp, fun k1 hk => by simp [hk],
      fun h => Bool.noConfusion h,
      fun _ => by simp,
      fun t1 ht => by simp,
      by simp, ?_⟩
    intro hm hex
    exfalso
    obtain ⟨lr, hmem, hlr⟩ := hex
    obtain ⟨r, rs, hcons⟩ : ∃ r rs, qview s k = r :: rs := by
      cases hqv : qview s k with
      | nil => rw [hqv] at hmem; cases hmem
      | cons a b => exact ⟨a, b, rfl⟩
    have hst : (LockManagerB.Status s k).1 ≠ LockMode.UNLOCKED := by
      rw [fst_StatusB_cons s k r rs hcons]
      exact statusLoop_ne_UNLOCKED _ _ _ (by rw [← hcons]; exact hm) (by decide)
    rw [Bool.or_eq_true] at hg
    rcases hg with hg1 | hg2
    · exact hst (of_decide_eq_true hg1)
    · rw [List.all_eq_true] at hg2
      have hx := hg2 lr hmem
      rw [hlr] at hx
      simp at hx

/-- Witness for C3: with `[S:T1, E:T2]` queued on key 0, a subsequent
`ReadLock(T3)` is not granted even though the sole owner is SHARED. -/
theorem C3_readLockB_characterization_witness :
    (LockManagerB.ReadLock
      (LockManagerB.WriteLock (LockManagerB.ReadLock initState 1 0).2 2 0).2 3 0).1
      = false :=
  (C3_readLockB_characterization
      (LockManagerB.WriteLock (LockManagerB.ReadLock initState 1 0).2 2 0).2 3 0).2.2.2.2.2.2.2
    (by decide) (by decide)

/-- C4: under policy B, for every key with a non-empty queue (holding
only well-formed SHARED/EXCLUSIVE requests, the only ones the API
creates), `Status` returns exactly the owners computed by the specified
walk — a lone EXCLUSIVE front owner, or the maximal front run of SHARED
owners — with the mode of the last accepted request; whenever the
returned mode is EXCLUSIVE the owners list has exactly one transaction,
and the same singleton property holds for policy A's `Status`. -/
theorem C4_statusB_owner_walk (s : LMState) (k : Key)
    (hm : ∀ r ∈ qview s k, r.mode_ ≠ LockMode.UNLOCKED) :
    (qview s k ≠ [] →
      (LockManagerB.Status s k).1 = (specOwnersRun (qview s k)).1
      ∧ (LockManagerB.Status s k).2.1 = (specOwnersRun (qview s k)).2)
    ∧ ((LockManagerB.Status s k).1 = LockMode.EXCLUSIVE →
        (LockManagerB.Status s k).2.1.length = 1)
    ∧ ((LockManagerA.Status s k).1 = LockMode.EXCLUSIVE →
        (LockManagerA.Status s k).2.1.length = 1) := by
  refine ⟨?_, ?_, ?_⟩
  · intro hq
    obtain ⟨r, rs, hcons⟩ : ∃ r rs, qview s k = r :: rs := by
      cases hqv : qview s k with
      | nil => exact absurd hqv hq
      | cons a b => exact ⟨a, b, rfl⟩
    rw [fst_StatusB_cons s k r rs hcons, owners_StatusB_cons s k r rs hcons,
      statusLoop_eq_specOwnersRun r rs (hcons ▸ hm), hcons]
    exact ⟨rfl, rfl⟩
  · intro he
    cases hqv : qview s k with
    | nil => rw [fst_StatusB_nil s k hqv] at he; cases he
    | cons r rs =>
      rw [fst_StatusB_cons s k r rs hqv] at he
      rw [owners_StatusB_cons s k r rs hqv]
      rw [statusLoop_eq_specOwnersRun r rs (hqv ▸ hm)] at he ⊢
      unfold specOwnersRun at he ⊢
      by_cases hx : r.mode_ = LockMode.EXCLUSIVE
      · simp [hx]
      · simp [hx] at he
  · intro he
    cases hqv : qview s k with
    | nil => rw [(statusA_nil s k hqv).1] at he; cases he
    | cons r rs => rw [(statusA_cons s k r rs hqv).2]; rfl

/-- Witness for C4: with queue `[S:T1, S:T2, E:T3]` on key 0 the walk
reports the shared run `[T1, T2]`. -/
theorem C4_statusB_owner_walk_witness :
    (LockManagerB.Status
        (LockManagerB.WriteLock
          (LockManagerB.ReadLock (LockManagerB.ReadLock initState 1 0).2 2 0).2 3 0).2
        0).2.1 = [1, 2] :=
  ((C4_statusB_owner_walk
      (LockManagerB.WriteLock
        (LockManagerB.ReadLock (LockManagerB.ReadLock initState 1 0).2 2 0).2 3 0).2
      0 (by decide)).1 (by decide)).2.trans (by decide)

/-- C6: under policy A, `Release(txn, key)` removes the first request in
`key`'s queue whose transaction matches `txn`; the removed request counts
as the current owner exactly when it was found at the very front, and
exactly in that case, when the queue is non-empty afterward, the new
front transaction's Wait Counter is decremented by one and, on reaching
zero, that transaction is appended to the Ready Sink and erased from the
Wait Counter.  Releasing with no matching request, releasing a non-front
waiter, or releasing a lone owner triggers no promotion.  Concretely, for
WriteLock calls by T1, T2, T3 on one key, releasing T1 promotes T2 and
not T3. -/
theorem C6_releaseA_characterization (s : LMState) (t : Txn) (k : Key) :
    qview (LockManagerA.Release s t k) k = eraseFirstReq t (qview s k)
    ∧ (∀ k1, k1 ≠ k → qview (LockManagerA.Release s t k) k1 = qview s k1)
    ∧ ((∀ r ∈ qview s k, r.txn_ ≠ t) →
        (LockManagerA.Release s t k).txn_waits = s.txn_waits
        ∧ (LockManagerA.Release s t k).ready_txns = s.ready_txns)
    ∧ (∀ r0 rs0, qview s k = r0 :: rs0 → r0.txn_ ≠ t →
        (LockManagerA.Release s t k).txn_waits = s.txn_waits
        ∧ (LockManagerA.Release s t k).ready_txns = s.ready_txns)
    ∧ (∀ r0, qview s k = [r0] → r0.txn_ = t →
        (LockManagerA.Release s t k).txn_waits = s.txn_waits
        ∧ (LockManagerA.Release s t k).ready_txns = s.ready_txns)
    ∧ (∀ r0 next0 rs0, qview s k = r0 :: next0 :: rs0 → r0.txn_ = t →
        ((s.txn_waits next0.txn_).getD 0 = 1 →
          (LockManagerA.Release s t k).ready_txns = s.ready_txns ++ [next0.txn_]
          ∧ (LockManagerA.Release s t k).txn_waits next0.txn_ = none)
        ∧ ((s.txn_waits next0.txn_).getD 0 ≠ 1 →
          (LockManagerA.Release s t k).ready_txns = s.ready_txns
          ∧ (LockManagerA.Release s t k).txn_waits next0.txn_
              = some ((s.txn_waits next0.txn_).getD 0 - 1))
        ∧ (∀ t1, t1 ≠ next0.txn_ →
            (LockManagerA.Release s t k).txn_waits t1 = s.txn_waits t1))
    ∧ ((LockManagerA.Release
          (LockManagerA.WriteLock
            (LockManagerA.WriteLock
              (LockManagerA.WriteLock initState 1 0).2 2 0).2 3 0).2 1 0).ready_txns
        = [2]
       ∧ (LockManagerA.Release
            (LockManagerA.WriteLock
              (LockManagerA.WriteLock
                (LockManagerA.WriteLock initState 1 0).2 2 0).2 3 0).2 1 0).txn_waits 2
          = none
       ∧ (LockManagerA.Release
            (LockManagerA.WriteLock
              (LockManagerA.WriteLock
                (LockManagerA.WriteLock initState 1 0).2 2 0).2 3 0).2 1 0).txn_waits 3
          = some 1) := by
  have hqa : ∀ k1, qview (LockManagerA.Release s t k) k1
      = if k1 = k then eraseFirstReq t (qview s k) else qview s k1 := by
    intro k1
    rw [releaseA_eq]
    cases hq1 : eraseFirstReq t (qview s k) with
    | nil => simp
    | cons next rs1 =>
      by_cases hf : LockManagerA.removedOwnerFlag t (qview s k) = true <;> simp [hf]
  refine ⟨by rw [hqa k]; simp, fun k1 hk => by rw [hqa k1]; simp [hk], ?_, ?_, ?_, ?_,
    by decide⟩
  · intro hno
    have hq1 : eraseFirstReq t (qview s k) = qview s k :=
      eraseFirstReq_of_no_match t _ hno
    have hrel : LockManagerA.Release s t k = setQueue s k (qview s k) := by
      rw [releaseA_eq, hq1]
      cases hqv : qview s k with
      | nil => rfl
      | cons r rs =>
        have hflag : LockManagerA.removedOwnerFlag t (r :: rs) = false := by
          simp only [LockManagerA.removedOwnerFlag, decide_eq_false_iff_not]
          exact hno r (hqv ▸ List.mem_cons_self r rs)
        simp only [hflag, Bool.false_eq_true, if_false]
    exact ⟨by rw [hrel]; rfl, by rw [hrel]; rfl⟩
  · intro r0 rs0 hq hr0
    have hrel : LockManagerA.Release s t k
        = setQueue s k (eraseFirstReq t (qview s k)) := by
      rw [releaseA_eq, hq]
      have hflag : LockManagerA.removedOwnerFlag t (r0 :: rs0) = false := by
        simp [LockManagerA.removedOwnerFlag, hr0]
      simp only [eraseFirstReq, if_neg hr0, hflag, Bool.false_eq_true, if_false]
    exact ⟨by rw [hrel]; rfl, by rw [hrel]; rfl⟩
  · intro r0 hq hr0
    have hrel : LockManagerA.Release s t k = setQueue s k [] := by
      rw [releaseA_eq, hq]
      simp only [eraseFirstReq, if_pos hr0]
    exact ⟨by rw [hrel]; rfl, by rw [hrel]; rfl⟩
  · intro r0 next0 rs0 hq hr0
    have hq1 : eraseFirstReq t (qview s k) = next0 :: rs0 := by
      rw [hq]
      simp only [eraseFirstReq, if_pos hr0]
    have hflag : LockManagerA.removedOwnerFlag t (qview s k) = true := by
      rw [hq]
      simp [LockManagerA.removedOwnerFlag, hr0]
    have hrel : LockManagerA.Release s t k
        = LockManagerA.promoteNext (setQueue s k (next0 :: rs0)) next0.txn_ := by
      rw [releaseA_eq, hq1]
      simp only [hflag, if_true]
    rw [hrel]
    exact promoteNext_spec (setQueue s k (next0 :: rs0)) next0.txn_

/-- Witness for C6: releasing the owner T1 of queue `[T1, T2]` promotes
T2 to the Ready Sink. -/
theorem C6_releaseA_characterization_witness :
    (LockManagerA.Release
      (LockManagerA.WriteLock (LockManagerA.WriteLock initState 1 0).2 2 0).2
      1 0).ready_txns = [2] := by
  have h := ((C6_releaseA_characterization
      (LockManagerA.WriteLock (LockManagerA.WriteLock initState 1 0).2 2 0).2
      1 0).2.2.2.2.2.1
      ⟨LockMode.EXCLUSIVE, 1⟩ ⟨LockMode.EXCLUSIVE, 2⟩ [] (by decide) (by decide)).1
    (by decide)
  rw [h.1]
  decide

/-- C5: under policy B on one key (0, standing for `"y"`), the sequence
ReadLock(T1), ReadLock(T2), WriteLock(T3), ReadLock(T4), Release(T1),
Release(T2), Release(T3) returns true, true, false, false for the lock
calls; T3 and T4 each have wait count 1 after their calls; Release(T1)
leaves owners `[T2]` with no promotion; Release(T2) leaves owners `[T3]`
and promotes T3; Release(T3) leaves owners `[T4]` and promotes T4. -/
theorem C5_policyB_scenario :
    (LockManagerB.ReadLock initState 1 0).1 = true
    ∧ (LockManagerB.ReadLock (LockManagerB.ReadLock initState 1 0).2 2 0).1 = true
    ∧ scenB3.1 = false ∧ scenB4.1 = false
    ∧ scenB3.2.txn_waits 3 = some 1 ∧ scenB4.2.txn_waits 4 = some 1
    ∧ (LockManagerB.Status scenB5 0).2.1 = [2] ∧ scenB5.ready_txns = []
    ∧ scenB5.txn_waits 3 = some 1 ∧ scenB5.txn_waits 4 = some 1
    ∧ (LockManagerB.Status scenB6 0).2.1 = [3] ∧ scenB6.ready_txns = [3]
    ∧ scenB6.txn_waits 3 = none ∧ scenB6.txn_waits 4 = some 1
    ∧ (LockManagerB.Status scenB7 0).2.1 = [4] ∧ scenB7.ready_txns = [3, 4]
    ∧ scenB7.txn_waits 4 = none := by
  decide

end LockMgr
